import Mathlib

/-!
Verification of the bun_panda pandas benchmark companion
(`bench/pandas_compare.py`): a shallow embedding of the deterministic
LCG sequence generator, the dataset synthesizer `build_dataset`, the
`median` reducer, the timing harness `run_case`, and the report loop of
`main`, together with theorems settling the specification claims.

Modelling conventions:
* Python floats are modelled by `ℚ`.  Every float produced by the
  generator is `state / 2^32` with `state < 2^32`, and the arithmetic
  the script performs on these values (`* 1000`, `* 5 + 0.5`) is exact
  in IEEE double precision, so the rational model is faithful there;
  Python's `round(x, 2)` is modelled as exact round-half-to-even at two
  decimal places.
* The opaque pandas operations under test are modelled, per the spec's
  contract, as streams of optional integer results (`ℕ → Option ℤ`,
  indexed by the cumulative invocation count of the case), and the
  wall-clock durations of the timed invocations as a stream `ℕ → ℚ`
  of milliseconds.
* Side effects of the harness (which invocation happens when) are
  reified as an explicit event trace (`Ev`); exceptions are modelled by
  `Except String`.
-/

/-- The LCG state transition of `lcg` (line 16 of the source):
`state = (1664525 * state + 1013904223) & 0xFFFFFFFF`. -/
def lcgStep (s : ℕ) : ℕ :=
  (1664525 * s + 1013904223) % 2 ^ 32

/-- State of the generator produced by `lcg seed` after `n` calls of `rnd`;
the initial state is `seed & 0xFFFFFFFF`. -/
def lcgStream (seed : ℕ) : ℕ → ℕ
  | 0 => seed % 2 ^ 32
  | n + 1 => lcgStep (lcgStream seed n)

/-- The value returned by the `(n+1)`-st call of `rnd`: the updated state
divided by `2^32` (line 17 of the source). -/
def lcgOut (seed n : ℕ) : ℚ :=
  (lcgStream seed (n + 1) : ℚ) / 2 ^ 32

/-- Exact round-half-to-even to an integer, the rounding rule of Python's
builtin `round`. -/
def roundHalfEven (q : ℚ) : ℤ :=
  if q - ⌊q⌋ < 1 / 2 then ⌊q⌋
  else if 1 / 2 < q - ⌊q⌋ then ⌊q⌋ + 1
  else if ⌊q⌋ % 2 = 0 then ⌊q⌋ else ⌊q⌋ + 1

/-- Model of Python's `round(x, 2)`. -/
def round2 (q : ℚ) : ℚ :=
  (roundHalfEven (q * 100) : ℚ) / 100

/-- The keyword flags of `build_dataset` (line 22), all defaulting to false. -/
structure Flags where
  skew : Bool := false
  wide : Bool := false
  high_cardinality : Bool := false
  include_missing : Bool := false
deriving DecidableEq, Repr

def groups : List String := ["A", "B", "C", "D", "E", "F"]

def cities : List String := ["Austin", "Seattle", "Boston", "Denver", "Miami"]

def segments : List String := ["consumer", "enterprise", "startup"]

/-- One row of the synthesized dataset (lines 32-47).  Nullable fields are
`Option`; the ten `extra_i` columns of wide mode are collected in `extras`. -/
structure Row where
  id : ℕ
  group : String
  city : Option String
  segment : Option String
  value : ℤ
  weight : ℚ
  revenue : ℚ
  active : Bool
  bucket : String
  user_key : String
  session_key : String
  extras : List ℤ
deriving DecidableEq, Repr

/-- The row built at index `idx` when the generator state before the row is
`s`: the row consumes two generator outputs (`value` from the first,
`weight` from the second), exactly as lines 30-44 of the source. -/
def mkRow (flags : Flags) (idx s : ℕ) : Row :=
  let s1 := lcgStep s
  let s2 := lcgStep s1
  let value : ℤ := ⌊(s1 : ℚ) / 2 ^ 32 * 1000⌋
  let weight : ℚ := round2 ((s2 : ℚ) / 2 ^ 32 * 5 + 1 / 2)
  { id := idx
    group := if flags.skew ∧ idx % 100 < 70 then "A"
             else groups.getD (idx % groups.length) default
    city := if flags.include_missing ∧ idx % 23 = 0 then none
            else some (cities.getD (idx % cities.length) default)
    segment := if flags.include_missing ∧ idx % 31 = 0 then none
               else some (segments.getD (idx % segments.length) default)
    value := value
    weight := weight
    revenue := round2 ((value : ℚ) * weight)
    active := decide (idx % 3 = 0)
    bucket := if value > 700 then "high" else if value > 350 then "mid" else "low"
    user_key := if flags.high_cardinality then "u_" ++ toString idx
                else "u_" ++ toString (idx % 120)
    session_key := if flags.high_cardinality then "s_" ++ toString (idx * 7)
                   else "s_" ++ toString (idx % 300)
    extras := if flags.wide then (List.range 10).map (fun i => (value + (i : ℤ)) % (50 + (i : ℤ)))
              else [] }

/-- The row loop of `build_dataset` (lines 29-48), threading the generator
state `s` through successive rows starting at index `idx`. -/
def buildLoop (flags : Flags) : ℕ → ℕ → ℕ → List Row
  | _, _, 0 => []
  | s, idx, n + 1 => mkRow flags idx s :: buildLoop flags (lcgStep (lcgStep s)) (idx + 1) n

/-- `build_dataset` with the seed made explicit: the generator is created
fresh from `seed` and the loop starts at index 0. -/
def buildWithSeed (seed n : ℕ) (flags : Flags) : List Row :=
  buildLoop flags (seed % 2 ^ 32) 0 n

/-- `build_dataset` (lines 22-50): re-seeds the sequence generator with the
constant 42 on every call and synthesizes `n` rows. -/
def build_dataset (n : ℕ) (flags : Flags) : List Row :=
  buildWithSeed 42 n flags

/-- `median` (lines 67-74): 0.0 on the empty list, else the middle element
of the ascending sort for odd length, the mean of the two central elements
for even length. -/
def pymedian (values : List ℚ) : ℚ :=
  if values = [] then 0
  else
    let v := List.insertionSort (fun a b => a ≤ b) values
    let mid := v.length / 2
    if v.length % 2 = 1 then v.getD mid 0
    else (v.getD (mid - 1) 0 + v.getD mid 0) / 2

/-- An invocation event of the operation under test: `warm k` is the
`k`-th invocation of the case's operation, made as warmup (result and
timing discarded); `meas k` is a timed, measured invocation. -/
inductive Ev where
  | warm : ℕ → Ev
  | meas : ℕ → Ev
deriving DecidableEq, Repr

def Ev.isWarm : Ev → Bool
  | Ev.warm _ => true
  | Ev.meas _ => false

def noneMsg : String := "returned None"

def zeroDivMsg : String := "ZeroDivisionError: division by zero"

/-- The timed loop of `run_case` (lines 57-63): `n` invocations starting at
cumulative invocation index `k`; an invocation whose result is `none`
raises (line 61-62), otherwise its duration is recorded.  Returns the event
trace together with either the error or the recorded times and the next
invocation index. -/
def timedLoop (fn : ℕ → Option ℤ) (dur : ℕ → ℚ) : ℕ → ℕ → List Ev × Except String (List ℚ × ℕ)
  | k, 0 => ([], Except.ok ([], k))
  | k, n + 1 =>
    match fn k with
    | none => ([Ev.meas k], Except.error noneMsg)
    | some _ =>
      match timedLoop fn dur (k + 1) n with
      | (evs, Except.error e) => (Ev.meas k :: evs, Except.error e)
      | (evs, Except.ok (ts, k2)) => (Ev.meas k :: evs, Except.ok (dur k :: ts, k2))

/-- `run_case` (lines 53-64): three warmup invocations whose results and
timings are discarded, then `iterations` timed invocations, returning the
arithmetic mean of the recorded times (division by zero raising when
`iterations = 0`, as `sum(times)/len(times)` does in Python). -/
def run_case (fn : ℕ → Option ℤ) (dur : ℕ → ℚ) (k iterations : ℕ) :
    List Ev × Except String (ℚ × ℕ) :=
  match timedLoop fn dur (k + 3) iterations with
  | (evs, Except.error e) => ([Ev.warm k, Ev.warm (k + 1), Ev.warm (k + 2)] ++ evs, Except.error e)
  | (evs, Except.ok (ts, k2)) =>
    ([Ev.warm k, Ev.warm (k + 1), Ev.warm (k + 2)] ++ evs,
      if ts.length = 0 then Except.error zeroDivMsg
      else Except.ok (ts.sum / (ts.length : ℚ), k2))

/-- The per-case round loop of `main` (lines 149-151): `run_case` is called
once per round, each call performing its own warmup; returns the event
trace and the list of round averages. -/
def caseRounds (fn : ℕ → Option ℤ) (dur : ℕ → ℚ) (iterations : ℕ) :
    ℕ → ℕ → List Ev × Except String (List ℚ × ℕ)
  | k, 0 => ([], Except.ok ([], k))
  | k, r + 1 =>
    match run_case fn dur k iterations with
    | (evs, Except.error e) => (evs, Except.error e)
    | (evs, Except.ok (avg, k2)) =>
      match caseRounds fn dur iterations k2 r with
      | (evs2, Except.error e) => (evs ++ evs2, Except.error e)
      | (evs2, Except.ok (avgs, k3)) => (evs ++ evs2, Except.ok (avg :: avgs, k3))

/-- A registered benchmark case: its name and the dataset variant it runs
on.  The operation itself is opaque to the harness (spec 4.3) and is
supplied separately as a result stream. -/
structure Case where
  name : String
  dataset : String
deriving DecidableEq, Repr

/-- The fixed case registry (lines 91-144), in registration order. -/
def caseList : List Case :=
  [⟨"groupby_mean", "base"⟩,
   ⟨"filter_sort_top100", "base"⟩,
   ⟨"sort_top1000", "base"⟩,
   ⟨"sort_multicol_top800", "base"⟩,
   ⟨"value_counts_city", "base"⟩,
   ⟨"value_counts_group_city_top10", "base"⟩,
   ⟨"value_counts_missing_city_dropna_false", "missing"⟩,
   ⟨"groupby_missing_city_mean", "missing"⟩,
   ⟨"value_counts_high_card_city_top20", "high_card"⟩,
   ⟨"value_counts_high_card_user_top100", "high_card"⟩]

/-- One entry of the `results` list of the payload (lines 153-160). -/
structure CaseResult where
  caseName : String
  dataset : String
  pandasAvgMs : ℚ
  pandasRoundAverages : List ℚ
deriving DecidableEq, Repr

/-- The persisted run payload (lines 162-169); the wall-clock `generatedAt`
timestamp is outside the model. -/
structure Payload where
  rows : ℕ
  iterations : ℕ
  rounds : ℕ
  cases : ℕ
  results : List CaseResult
deriving DecidableEq, Repr

/-- The case loop of `main` (lines 146-160): cases are processed in
registration order, case number `j` drawing its operation results from
`fns j` and its timed durations from `durs j`; the first raised exception
aborts the whole run. -/
def processCases (fns : ℕ → ℕ → Option ℤ) (durs : ℕ → ℕ → ℚ) (iterations rounds : ℕ) :
    ℕ → List Case → Except String (List CaseResult)
  | _, [] => Except.ok []
  | j, c :: rest =>
    match (caseRounds (fns j) (durs j) iterations 0 rounds).2 with
    | Except.error e => Except.error e
    | Except.ok (ravgs, _) =>
      match processCases fns durs iterations rounds (j + 1) rest with
      | Except.error e => Except.error e
      | Except.ok rs => Except.ok (⟨c.name, c.dataset, pymedian ravgs, ravgs⟩ :: rs)

/-- `main` (lines 77-174) restricted to its core: run every registered case
and assemble the payload; an `Except.error` result models the run aborting
with an exception before the payload is written. -/
def pymain (rows iterations rounds : ℕ) (fns : ℕ → ℕ → Option ℤ) (durs : ℕ → ℕ → ℚ) :
    Except String Payload :=
  match processCases fns durs iterations rounds 0 caseList with
  | Except.error e => Except.error e
  | Except.ok results =>
    Except.ok { rows := rows, iterations := iterations, rounds := rounds,
                cases := results.length, results := results }

/-! ## Dataset lemmas -/

/-- Generator state before row `j` when the loop started in state `s`:
each row consumes exactly two generator steps. -/
def rowState (s j : ℕ) : ℕ :=
  (fun t => lcgStep (lcgStep t))^[j] s

theorem rowState_succ (s j : ℕ) :
    rowState s (j + 1) = rowState (lcgStep (lcgStep s)) j :=
  Function.iterate_succ_apply _ j s

theorem buildLoop_eq_map (flags : Flags) :
    ∀ n s idx : ℕ,
      buildLoop flags s idx n = (List.range n).map fun j => mkRow flags (idx + j) (rowState s j) := by
  intro n
  induction n with
  | zero => intro s idx; rfl
  | succ n ih =>
    intro s idx
    rw [List.range_succ_eq_map, List.map_cons, List.map_map]
    show mkRow flags idx s :: buildLoop flags (lcgStep (lcgStep s)) (idx + 1) n = _
    rw [ih]
    congr 1
    apply List.map_congr_left
    intro j _
    show mkRow flags (idx + 1 + j) (rowState (lcgStep (lcgStep s)) j) =
      mkRow flags (idx + (j + 1)) (rowState s (j + 1))
    rw [rowState_succ]
    congr 1
    omega

theorem build_dataset_eq_map (n : ℕ) (flags : Flags) :
    build_dataset n flags = (List.range n).map fun j => mkRow flags j (rowState 42 j) := by
  have h42 : (42 : ℕ) % 2 ^ 32 = 42 := by norm_num
  rw [build_dataset, buildWithSeed, h42, buildLoop_eq_map]
  exact List.map_congr_left fun a _ => by rw [Nat.zero_add]

theorem mem_build_dataset {r : Row} {n : ℕ} {flags : Flags} :
    r ∈ build_dataset n flags ↔ ∃ j, j < n ∧ r = mkRow flags j (rowState 42 j) := by
  rw [build_dataset_eq_map]
  simp only [List.mem_map, List.mem_range]
  constructor
  · rintro ⟨j, hj, rfl⟩; exact ⟨j, hj, rfl⟩
  · rintro ⟨j, hj, rfl⟩; exact ⟨j, hj, rfl⟩

/-- Claim C1: `build_dataset` re-seeds its sequence generator with the
constant 42 at the start of every call (it is `buildWithSeed 42`), so it is
a pure function of the row count and the flags: two calls with identical
arguments produce row-for-row identical datasets, for every `n ≥ 0` and
every flag combination. -/
theorem build_dataset_deterministic (n : ℕ) (flags1 flags2 : Flags) (h : flags1 = flags2) :
    build_dataset n flags1 = build_dataset n flags2 ∧
    (∀ i : ℕ, (build_dataset n flags1).get? i = (build_dataset n flags2).get? i) ∧
    build_dataset n flags1 = buildWithSeed 42 n flags1 := by
  subst h
  exact ⟨rfl, fun _ => rfl, rfl⟩

/-- Witness for C1: the determinism theorem applied at `n = 3` with the
skewed wide flag combination. -/
theorem build_dataset_deterministic_witness :
    build_dataset 3 { skew := true, wide := true } = build_dataset 3 { skew := true, wide := true } ∧
    (∀ i : ℕ, (build_dataset 3 { skew := true, wide := true }).get? i =
      (build_dataset 3 { skew := true, wide := true }).get? i) ∧
    build_dataset 3 { skew := true, wide := true } = buildWithSeed 42 3 { skew := true, wide := true } :=
  build_dataset_deterministic 3 _ _ rfl

/-- Claim C7: each call of the generator updates the state by the linear
congruential recurrence `state = (1664525 * state + 1013904223) mod 2^32`
and returns the updated state divided by `2^32`; every output lies in
`[0, 1)`, and `lcgOut` is literally a function of the seed and the call
count, so the output stream is a pure function of both. -/
theorem lcg_next_spec (seed n : ℕ) :
    lcgStream seed (n + 1) = (1664525 * lcgStream seed n + 1013904223) % 2 ^ 32 ∧
    lcgOut seed n = (lcgStream seed (n + 1) : ℚ) / 2 ^ 32 ∧
    0 ≤ lcgOut seed n ∧ lcgOut seed n < 1 := by
  refine ⟨rfl, rfl, ?_, ?_⟩
  · exact div_nonneg (Nat.cast_nonneg _) (by positivity)
  · have h : lcgStream seed (n + 1) < 2 ^ 32 := Nat.mod_lt _ (by positivity)
    rw [lcgOut, div_lt_one (by positivity)]
    exact_mod_cast h

/-- Claim C5: in every row of every dataset, `revenue = round(value * weight, 2)`
and `bucket` follows the threshold rule on `value` (`> 700 → "high"`,
`> 350 → "mid"`, else `"low"`); both fields are computed from the row's own
`value` and `weight`, never independently randomized. -/
theorem revenue_bucket_consistent (n : ℕ) (flags : Flags) (r : Row)
    (hr : r ∈ build_dataset n flags) :
    r.revenue = round2 ((r.value : ℚ) * r.weight) ∧
    r.bucket = (if r.value > 700 then "high" else if r.value > 350 then "mid" else "low") := by
  rcases mem_build_dataset.mp hr with ⟨j, hj, rfl⟩
  exact ⟨rfl, rfl⟩

/-- Witness for C5: the derived-field consistency theorem applied to the
first row of a one-row base dataset. -/
theorem revenue_bucket_consistent_witness :
    mkRow {} 0 (rowState 42 0) ∈ build_dataset 1 {} ∧
    (mkRow {} 0 (rowState 42 0)).revenue =
      round2 (((mkRow {} 0 (rowState 42 0)).value : ℚ) * (mkRow {} 0 (rowState 42 0)).weight) ∧
    (mkRow {} 0 (rowState 42 0)).bucket =
      (if (mkRow {} 0 (rowState 42 0)).value > 700 then "high"
       else if (mkRow {} 0 (rowState 42 0)).value > 350 then "mid" else "low") := by
  have hmem : mkRow {} 0 (rowState 42 0) ∈ build_dataset 1 {} :=
    mem_build_dataset.mpr ⟨0, by norm_num, rfl⟩
  exact ⟨hmem, (revenue_bucket_consistent 1 {} _ hmem).1, (revenue_bucket_consistent 1 {} _ hmem).2⟩

/-- Claim C6: with `include_missing` enabled, a row's `city` is null exactly
when its `id` is divisible by 23 and its `segment` is null exactly when its
`id` is divisible by 31; with the flag disabled no row has a null `city` or
`segment`. -/
theorem null_injection (n : ℕ) (flags : Flags) (r : Row) (hr : r ∈ build_dataset n flags) :
    (flags.include_missing = true →
      ((r.city = none ↔ r.id % 23 = 0) ∧ (r.segment = none ↔ r.id % 31 = 0))) ∧
    (flags.include_missing = false → r.city ≠ none ∧ r.segment ≠ none) := by
  rcases mem_build_dataset.mp hr with ⟨j, hj, rfl⟩
  constructor
  · intro hm
    constructor
    · show (if flags.include_missing ∧ j % 23 = 0 then none
            else some (cities.getD (j % cities.length) default)) = none ↔ _
      rw [hm]
      simp only [true_and]
      split_ifs with h <;> simp [h, mkRow]
    · show (if flags.include_missing ∧ j % 31 = 0 then none
            else some (segments.getD (j % segments.length) default)) = none ↔ _
      rw [hm]
      simp only [true_and]
      split_ifs with h <;> simp [h, mkRow]
  · intro hm
    constructor
    · show (if flags.include_missing ∧ j % 23 = 0 then none
            else some (cities.getD (j % cities.length) default)) ≠ none
      rw [hm]
      simp
    · show (if flags.include_missing ∧ j % 31 = 0 then none
            else some (segments.getD (j % segments.length) default)) ≠ none
      rw [hm]
      simp

/-- Witness for C6: the null-injection theorem applied to row 0 of a
one-row dataset with `include_missing` enabled: `0 % 23 = 0`, so `city` is
null there. -/
theorem null_injection_witness :
    mkRow { include_missing := true } 0 (rowState 42 0) ∈
      build_dataset 1 { include_missing := true } ∧
    (mkRow { include_missing := true } 0 (rowState 42 0)).city = none := by
  have hmem : mkRow { include_missing := true } 0 (rowState 42 0) ∈
      build_dataset 1 { include_missing := true } :=
    mem_build_dataset.mpr ⟨0, by norm_num, rfl⟩
  refine ⟨hmem, ?_⟩
  have h := ((null_injection 1 { include_missing := true } _ hmem).1 rfl).1
  exact h.mpr rfl

/-! ## Skew distribution (C4) -/

theorem mkRow_group_skew (flags : Flags) (hs : flags.skew = true) (j s : ℕ) :
    ((mkRow flags j s).group = "A" ↔ (j % 100 < 70 ∨ j % 6 = 0)) ∧
    (70 ≤ j % 100 → (mkRow flags j s).group = groups.getD (j % groups.length) default) := by
  have hgl : groups.length = 6 := rfl
  constructor
  · show (if flags.skew ∧ j % 100 < 70 then "A"
          else groups.getD (j % groups.length) default) = "A" ↔ _
    rw [hs, hgl]
    simp only [true_and]
    split_ifs with h
    · simp [h]
    · have h6 : j % 6 < 6 := Nat.mod_lt _ (by norm_num)
      simp only [h, false_or]
      generalize j % 6 = t at h6 ⊢
      interval_cases t <;> simp [groups]
  · intro h70
    show (if flags.skew ∧ j % 100 < 70 then "A"
          else groups.getD (j % groups.length) default) = _
    rw [hs]
    simp only [true_and]
    rw [if_neg (by omega)]

theorem mkRow_group_noskew (flags : Flags) (hs : flags.skew = false) (j s : ℕ) :
    (mkRow flags j s).group = groups.getD (j % groups.length) default := by
  show (if flags.skew ∧ j % 100 < 70 then "A"
        else groups.getD (j % groups.length) default) = _
  rw [hs]
  simp

theorem block_countP (b : ℕ) :
    ((List.range 100).countP fun j => decide (j < 70 ∨ (100 * b + j) % 6 = 0)) = 75 := by
  have hmod : ∀ j : ℕ, (100 * b + j) % 6 = (4 * (b % 6) + j) % 6 := by intro j; omega
  have h1 : ((List.range 100).countP fun j => decide (j < 70 ∨ (100 * b + j) % 6 = 0)) =
      ((List.range 100).countP fun j => decide (j < 70 ∨ (4 * (b % 6) + j) % 6 = 0)) := by
    apply List.countP_congr
    intro x _
    simp [hmod x]
  rw [h1]
  have h6 : b % 6 < 6 := Nat.mod_lt _ (by norm_num)
  generalize b % 6 = t at h6 ⊢
  interval_cases t <;> decide

theorem skew_block (flags : Flags) (hs : flags.skew = true) (n b : ℕ)
    (hn : 100 * (b + 1) ≤ n) :
    ((((build_dataset n flags).drop (100 * b)).take 100).countP fun r => r.group == "A") = 75 := by
  obtain ⟨m, rfl, hm⟩ : ∃ m, n = 100 * b + m ∧ 100 ≤ m :=
    ⟨n - 100 * b, by omega, by omega⟩
  rw [build_dataset_eq_map, List.range_add, List.map_append]
  have hlen : ((List.range (100 * b)).map fun j => mkRow flags j (rowState 42 j)).length = 100 * b := by
    simp
  rw [List.drop_left' hlen, List.map_map, ← List.map_take, List.take_range,
    min_eq_left hm, List.countP_map]
  rw [List.countP_congr (q := fun j => decide (j < 70 ∨ (100 * b + j) % 6 = 0)) ?_]
  · exact block_countP b
  · intro x hx
    have hx100 : x < 100 := List.mem_range.mp hx
    simp only [Function.comp_apply, beq_iff_eq, decide_eq_true_eq]
    rw [(mkRow_group_skew flags hs (100 * b + x) (rowState 42 (100 * b + x))).1]
    have : (100 * b + x) % 100 = x := by omega
    rw [this]

/-- Claim C4 counterexample: with skew enabled and `rowCount = 100` (one
full block), 75 rows — not 70 — carry the first category `"A"`, because an
index with `i % 100 ≥ 70` still cycles to `groups[0] = "A"` whenever
`i % 6 = 0` (here `i = 72, 78, 84, 90, 96`). -/
theorem skew_seventy_percent_false :
    ((build_dataset 100 { skew := true }).countP fun r => r.group == "A") = 75 ∧
    ¬ ((build_dataset 100 { skew := true }).countP fun r => r.group == "A") = 70 := by
  constructor <;> decide

/-- Claim C4 (amended): with skew enabled, indices with `i % 100 < 70` are
forced to the first category and the remaining indices of each 100-row
block cycle through the category list by `i % 6`, so a row carries the
first category iff `i % 100 < 70` or `i % 6 = 0`, and each complete
100-row block contains exactly 75 (not 70) such rows; with skew unset,
every row cycles by `i % categoryCount`. -/
theorem skew_distribution (n : ℕ) (flags : Flags) :
    (∀ r ∈ build_dataset n flags,
      (flags.skew = true → r.id % 100 < 70 → r.group = "A") ∧
      (flags.skew = true → 70 ≤ r.id % 100 →
        r.group = groups.getD (r.id % groups.length) default) ∧
      (flags.skew = false → r.group = groups.getD (r.id % groups.length) default) ∧
      (flags.skew = true → (r.group = "A" ↔ (r.id % 100 < 70 ∨ r.id % 6 = 0)))) ∧
    (flags.skew = true → ∀ b, 100 * (b + 1) ≤ n →
      ((((build_dataset n flags).drop (100 * b)).take 100).countP fun r => r.group == "A") = 75) := by
  constructor
  · intro r hr
    rcases mem_build_dataset.mp hr with ⟨j, hj, rfl⟩
    have hid : (mkRow flags j (rowState 42 j)).id = j := rfl
    rw [hid]
    refine ⟨?_, ?_, ?_, ?_⟩
    · intro hs h70
      exact (mkRow_group_skew flags hs j _).1.mpr (Or.inl h70)
    · intro hs h70
      exact (mkRow_group_skew flags hs j _).2 h70
    · intro hs
      exact mkRow_group_noskew flags hs j _
    · intro hs
      exact (mkRow_group_skew flags hs j _).1
  · intro hs b hb
    exact skew_block flags hs n b hb

/-- Witness for C4 (amended): the block-count part applied to the single
complete block of a 100-row skewed dataset. -/
theorem skew_distribution_witness :
    ((((build_dataset 100 { skew := true }).drop (100 * 0)).take 100).countP
      fun r => r.group == "A") = 75 :=
  (skew_distribution 100 { skew := true }).2 rfl 0 (by norm_num)

/-! ## Harness lemmas -/

theorem timedLoop_fst_meas (fn : ℕ → Option ℤ) (dur : ℕ → ℚ) :
    ∀ n k, ∀ e ∈ (timedLoop fn dur k n).1, e.isWarm = false := by
  intro n
  induction n with
  | zero => intro k e he; simp [timedLoop] at he
  | succ n ih =>
    intro k e he
    cases hf : fn k with
    | none =>
      simp only [timedLoop, hf] at he
      simp only [List.mem_singleton] at he
      subst he
      rfl
    | some v =>
      rcases h2 : timedLoop fn dur (k + 1) n with ⟨evs, res⟩
      cases res with
      | error e2 =>
        simp only [timedLoop, hf, h2] at he
        rcases List.mem_cons.mp he with rfl | hmem
        · rfl
        · exact ih (k + 1) e (by rw [h2]; exact hmem)
      | ok tl =>
        rcases tl with ⟨ts, kk⟩
        simp only [timedLoop, hf, h2] at he
        rcases List.mem_cons.mp he with rfl | hmem
        · rfl
        · exact ih (k + 1) e (by rw [h2]; exact hmem)

theorem run_case_fst (fn : ℕ → Option ℤ) (dur : ℕ → ℚ) (k iterations : ℕ) :
    (run_case fn dur k iterations).1 =
      [Ev.warm k, Ev.warm (k + 1), Ev.warm (k + 2)] ++ (timedLoop fn dur (k + 3) iterations).1 := by
  unfold run_case
  rcases h : timedLoop fn dur (k + 3) iterations with ⟨evs, res⟩
  cases res with
  | error e => rfl
  | ok v => rcases v with ⟨ts, k2⟩; rfl

theorem run_case_warm_count (fn : ℕ → Option ℤ) (dur : ℕ → ℚ) (k iterations : ℕ) :
    (run_case fn dur k iterations).1.countP (fun e => e.isWarm) = 3 := by
  rw [run_case_fst, List.countP_append]
  have h0 : (timedLoop fn dur (k + 3) iterations).1.countP (fun e => e.isWarm) = 0 :=
    List.countP_eq_zero.mpr (by
      intro a ha
      simp [timedLoop_fst_meas fn dur iterations (k + 3) a ha])
  rw [h0]
  rfl

theorem run_case_take3 (fn : ℕ → Option ℤ) (dur : ℕ → ℚ) (k iterations : ℕ) :
    (run_case fn dur k iterations).1.take 3 = [Ev.warm k, Ev.warm (k + 1), Ev.warm (k + 2)] := by
  rw [run_case_fst]
  exact List.take_left' rfl

theorem timedLoop_congr (fn1 fn2 : ℕ → Option ℤ) (dur1 dur2 : ℕ → ℚ) :
    ∀ n k, (∀ j, k ≤ j → fn1 j = fn2 j) → (∀ j, k ≤ j → dur1 j = dur2 j) →
      timedLoop fn1 dur1 k n = timedLoop fn2 dur2 k n := by
  intro n
  induction n with
  | zero => intro k _ _; rfl
  | succ n ih =>
    intro k hf hd
    have hrec := ih (k + 1) (fun j hj => hf j (by omega)) (fun j hj => hd j (by omega))
    simp only [timedLoop]
    rw [hf k le_rfl, hrec, hd k le_rfl]

theorem run_case_congr (fn1 fn2 : ℕ → Option ℤ) (dur1 dur2 : ℕ → ℚ) (k iterations : ℕ)
    (hf : ∀ j, k + 3 ≤ j → fn1 j = fn2 j) (hd : ∀ j, k + 3 ≤ j → dur1 j = dur2 j) :
    run_case fn1 dur1 k iterations = run_case fn2 dur2 k iterations := by
  unfold run_case
  rw [timedLoop_congr fn1 fn2 dur1 dur2 iterations (k + 3) hf hd]

theorem caseRounds_succ (fn : ℕ → Option ℤ) (dur : ℕ → ℚ) (iterations k r : ℕ) :
    caseRounds fn dur iterations k (r + 1) =
      match run_case fn dur k iterations with
      | (evs, Except.error e) => (evs, Except.error e)
      | (evs, Except.ok (avg, k2)) =>
        match caseRounds fn dur iterations k2 r with
        | (evs2, Except.error e) => (evs ++ evs2, Except.error e)
        | (evs2, Except.ok (avgs, k3)) => (evs ++ evs2, Except.ok (avg :: avgs, k3)) := rfl

theorem caseRounds_eq_err1 (fn : ℕ → Option ℤ) (dur : ℕ → ℚ) (iterations k r : ℕ)
    (evs : List Ev) (e : String) (h : run_case fn dur k iterations = (evs, Except.error e)) :
    caseRounds fn dur iterations k (r + 1) = (evs, Except.error e) := by
  simp [caseRounds_succ, h]

theorem caseRounds_eq_ok_err (fn : ℕ → Option ℤ) (dur : ℕ → ℚ) (iterations k r : ℕ)
    (evs : List Ev) (avg : ℚ) (kk : ℕ) (evs2 : List Ev) (e : String)
    (h1 : run_case fn dur k iterations = (evs, Except.ok (avg, kk)))
    (h2 : caseRounds fn dur iterations kk r = (evs2, Except.error e)) :
    caseRounds fn dur iterations k (r + 1) = (evs ++ evs2, Except.error e) := by
  simp [caseRounds_succ, h1, h2]

theorem caseRounds_eq_ok_ok (fn : ℕ → Option ℤ) (dur : ℕ → ℚ) (iterations k r : ℕ)
    (evs : List Ev) (avg : ℚ) (kk : ℕ) (evs2 : List Ev) (avgs : List ℚ) (k3 : ℕ)
    (h1 : run_case fn dur k iterations = (evs, Except.ok (avg, kk)))
    (h2 : caseRounds fn dur iterations kk r = (evs2, Except.ok (avgs, k3))) :
    caseRounds fn dur iterations k (r + 1) = (evs ++ evs2, Except.ok (avg :: avgs, k3)) := by
  simp [caseRounds_succ, h1, h2]

theorem caseRounds_ok_spec (fn : ℕ → Option ℤ) (dur : ℕ → ℚ) (iterations : ℕ) :
    ∀ rounds k (avgs : List ℚ) (k2 : ℕ),
      (caseRounds fn dur iterations k rounds).2 = Except.ok (avgs, k2) →
      avgs.length = rounds ∧
      (caseRounds fn dur iterations k rounds).1.countP (fun e => e.isWarm) = 3 * rounds := by
  intro rounds
  induction rounds with
  | zero =>
    intro k avgs k2 h
    simp only [caseRounds, Except.ok.injEq, Prod.mk.injEq] at h
    rw [← h.1]
    exact ⟨rfl, rfl⟩
  | succ r ih =>
    intro k avgs k2 h
    rcases h1 : run_case fn dur k iterations with ⟨evs, res⟩
    cases res with
    | error e =>
      rw [caseRounds_eq_err1 fn dur iterations k r evs e h1] at h
      simp at h
    | ok ak =>
      rcases ak with ⟨avg, kk⟩
      rcases h2 : caseRounds fn dur iterations kk r with ⟨evs2, res2⟩
      cases res2 with
      | error e =>
        rw [caseRounds_eq_ok_err fn dur iterations k r evs avg kk evs2 e h1 h2] at h
        simp at h
      | ok al =>
        rcases al with ⟨avgs2, k3⟩
        have heq := caseRounds_eq_ok_ok fn dur iterations k r evs avg kk evs2 avgs2 k3 h1 h2
        rw [heq] at h
        rw [heq]
        simp only [Except.ok.injEq, Prod.mk.injEq] at h
        obtain ⟨rfl, rfl⟩ : avg :: avgs2 = avgs ∧ k3 = k2 := h
        obtain ⟨hlen, hcnt⟩ := ih kk avgs2 k3 (by rw [h2])
        rw [h2] at hcnt
        constructor
        · simp [← hlen]
        · simp only [List.countP_append]
          have hw : evs.countP (fun e => e.isWarm) = 3 := by
            have hc := run_case_warm_count fn dur k iterations
            rw [h1] at hc
            exact hc
          rw [hw, hcnt]
          omega

theorem run_case_none_error (fn : ℕ → Option ℤ) (dur : ℕ → ℚ) (k iterations : ℕ)
    (hfn : ∀ j, fn j = none) :
    ∃ e, (run_case fn dur k iterations).2 = Except.error e := by
  cases iterations with
  | zero => exact ⟨zeroDivMsg, rfl⟩
  | succ n =>
    refine ⟨noneMsg, ?_⟩
    unfold run_case
    have h : timedLoop fn dur (k + 3) (n + 1) = ([Ev.meas (k + 3)], Except.error noneMsg) := by
      simp [timedLoop, hfn (k + 3)]
    rw [h]

theorem caseRounds_none_error (fn : ℕ → Option ℤ) (dur : ℕ → ℚ) (iterations k rounds : ℕ)
    (hfn : ∀ j, fn j = none) (hr : 1 ≤ rounds) :
    ∃ e, (caseRounds fn dur iterations k rounds).2 = Except.error e := by
  cases rounds with
  | zero => omega
  | succ r =>
    rcases h1 : run_case fn dur k iterations with ⟨evs, res⟩
    cases res with
    | error e2 =>
      exact ⟨e2, by rw [caseRounds_eq_err1 fn dur iterations k r evs e2 h1]⟩
    | ok v =>
      obtain ⟨e, he⟩ := run_case_none_error fn dur k iterations hfn
      rw [h1] at he
      simp at he

theorem processCases_cons (fns : ℕ → ℕ → Option ℤ) (durs : ℕ → ℕ → ℚ)
    (iterations rounds j : ℕ) (c : Case) (rest : List Case) :
    processCases fns durs iterations rounds j (c :: rest) =
      match (caseRounds (fns j) (durs j) iterations 0 rounds).2 with
      | Except.error e => Except.error e
      | Except.ok (ravgs, _) =>
        match processCases fns durs iterations rounds (j + 1) rest with
        | Except.error e => Except.error e
        | Except.ok rs => Except.ok (⟨c.name, c.dataset, pymedian ravgs, ravgs⟩ :: rs) := rfl

theorem processCases_cons_err (fns : ℕ → ℕ → Option ℤ) (durs : ℕ → ℕ → ℚ)
    (iterations rounds j : ℕ) (c : Case) (rest : List Case) (e : String)
    (h : (caseRounds (fns j) (durs j) iterations 0 rounds).2 = Except.error e) :
    processCases fns durs iterations rounds j (c :: rest) = Except.error e := by
  simp [processCases_cons, h]

theorem processCases_cons_ok_err (fns : ℕ → ℕ → Option ℤ) (durs : ℕ → ℕ → ℚ)
    (iterations rounds j : ℕ) (c : Case) (rest : List Case) (ravgs : List ℚ) (kk : ℕ) (e : String)
    (h1 : (caseRounds (fns j) (durs j) iterations 0 rounds).2 = Except.ok (ravgs, kk))
    (h2 : processCases fns durs iterations rounds (j + 1) rest = Except.error e) :
    processCases fns durs iterations rounds j (c :: rest) = Except.error e := by
  simp [processCases_cons, h1, h2]

theorem processCases_cons_ok_ok (fns : ℕ → ℕ → Option ℤ) (durs : ℕ → ℕ → ℚ)
    (iterations rounds j : ℕ) (c : Case) (rest : List Case) (ravgs : List ℚ) (kk : ℕ)
    (rs : List CaseResult)
    (h1 : (caseRounds (fns j) (durs j) iterations 0 rounds).2 = Except.ok (ravgs, kk))
    (h2 : processCases fns durs iterations rounds (j + 1) rest = Except.ok rs) :
    processCases fns durs iterations rounds j (c :: rest) =
      Except.ok (⟨c.name, c.dataset, pymedian ravgs, ravgs⟩ :: rs) := by
  simp [processCases_cons, h1, h2]

theorem processCases_ok (fns : ℕ → ℕ → Option ℤ) (durs : ℕ → ℕ → ℚ) (iterations rounds : ℕ) :
    ∀ (cs : List Case) (j : ℕ) (rs : List CaseResult),
      processCases fns durs iterations rounds j cs = Except.ok rs →
      rs.map (fun r => (r.caseName, r.dataset)) = cs.map (fun c => (c.name, c.dataset)) ∧
      ∀ r ∈ rs, r.pandasAvgMs = pymedian r.pandasRoundAverages ∧
        r.pandasRoundAverages.length = rounds := by
  intro cs
  induction cs with
  | nil =>
    intro j rs h
    simp only [processCases, Except.ok.injEq] at h
    subst h
    simp
  | cons c rest ih =>
    intro j rs h
    rcases h1 : (caseRounds (fns j) (durs j) iterations 0 rounds).2 with e | rk
    · rw [processCases_cons_err fns durs iterations rounds j c rest e h1] at h
      simp at h
    · rcases rk with ⟨ravgs, kk⟩
      rcases h2 : processCases fns durs iterations rounds (j + 1) rest with e2 | rs2
      · rw [processCases_cons_ok_err fns durs iterations rounds j c rest ravgs kk e2 h1 h2] at h
        simp at h
      · rw [processCases_cons_ok_ok fns durs iterations rounds j c rest ravgs kk rs2 h1 h2] at h
        simp only [Except.ok.injEq] at h
        subst h
        obtain ⟨hmap, hall⟩ := ih (j + 1) rs2 h2
        refine ⟨?_, ?_⟩
        · simp [hmap]
        · intro r hr
          rcases List.mem_cons.mp hr with rfl | hmem
          · refine ⟨rfl, ?_⟩
            exact (caseRounds_ok_spec (fns j) (durs j) iterations rounds 0 ravgs kk h1).1
          · exact hall r hmem

theorem processCases_none_error (fns : ℕ → ℕ → Option ℤ) (durs : ℕ → ℕ → ℚ)
    (iterations rounds : ℕ) (hr : 1 ≤ rounds) :
    ∀ (cs : List Case) (j0 j : ℕ), j < cs.length → (∀ k, fns (j0 + j) k = none) →
      ∃ e, processCases fns durs iterations rounds j0 cs = Except.error e := by
  intro cs
  induction cs with
  | nil =>
    intro j0 j hj hnull
    simp at hj
  | cons c rest ih =>
    intro j0 j hj hnull
    rcases h1 : (caseRounds (fns j0) (durs j0) iterations 0 rounds).2 with e | rk
    · exact ⟨e, processCases_cons_err fns durs iterations rounds j0 c rest e h1⟩
    · rcases rk with ⟨ravgs, kk⟩
      cases j with
      | zero =>
        obtain ⟨e, he⟩ := caseRounds_none_error (fns j0) (durs j0) iterations 0 rounds
          (by simpa using hnull) hr
        rw [he] at h1
        cases h1
      | succ j2 =>
        have hnull2 : ∀ k, fns ((j0 + 1) + j2) k = none := by
          intro k
          have := hnull k
          rwa [show j0 + (j2 + 1) = (j0 + 1) + j2 by omega] at this
        obtain ⟨e, he⟩ := ih (j0 + 1) j2 (by simpa using hj) hnull2
        exact ⟨e, processCases_cons_ok_err fns durs iterations rounds j0 c rest ravgs kk e h1 he⟩

theorem pymain_ok_inv {rows iterations rounds : ℕ} {fns : ℕ → ℕ → Option ℤ}
    {durs : ℕ → ℕ → ℚ} {p : Payload}
    (h : pymain rows iterations rounds fns durs = Except.ok p) :
    ∃ rs, processCases fns durs iterations rounds 0 caseList = Except.ok rs ∧
      p.results = rs ∧ p.cases = rs.length ∧ p.rows = rows ∧ p.iterations = iterations ∧
      p.rounds = rounds := by
  unfold pymain at h
  rcases h1 : processCases fns durs iterations rounds 0 caseList with e | rs
  · rw [h1] at h
    simp at h
  · rw [h1] at h
    simp only [Except.ok.injEq] at h
    subst h
    exact ⟨rs, rfl, rfl, rfl, rfl, rfl, rfl⟩

/-! ## Claims about the median and the report loop -/

/-- Claim C2: for every non-empty list of round means, `median` returns the
median of any ascending sort of the list — the middle element for odd
length, the mean of the two central elements for even length; in
particular `median [3,1,2] = 2` and `median [4,1,3,2] = 2.5`; and the
robust average reported for every case of a successful run is exactly
`median` of that case's round averages. -/
theorem median_is_sorted_middle :
    (∀ (values s : List ℚ), values ≠ [] → values.Perm s →
      s.Sorted (fun a b => a ≤ b) →
      pymedian values =
        if s.length % 2 = 1 then s.getD (s.length / 2) 0
        else (s.getD (s.length / 2 - 1) 0 + s.getD (s.length / 2) 0) / 2) ∧
    pymedian [3, 1, 2] = 2 ∧ pymedian [4, 1, 3, 2] = 5 / 2 ∧
    (∀ (rows iterations rounds : ℕ) (fns : ℕ → ℕ → Option ℤ) (durs : ℕ → ℕ → ℚ) (p : Payload),
      pymain rows iterations rounds fns durs = Except.ok p →
      ∀ res ∈ p.results, res.pandasAvgMs = pymedian res.pandasRoundAverages) := by
  refine ⟨?_, by decide, ?_, ?_⟩
  · intro values s hne hperm hsort
    have hs : s = List.insertionSort (fun a b => a ≤ b) values :=
      List.eq_of_perm_of_sorted
        (hperm.symm.trans (List.perm_insertionSort _ values).symm) hsort
        (List.sorted_insertionSort _ values)
    rw [hs]
    unfold pymedian
    rw [if_neg hne]
  · have hne : ([4, 1, 3, 2] : List ℚ) ≠ [] := by simp
    norm_num [pymedian, List.insertionSort, List.orderedInsert, hne]
  · intro rows iterations rounds fns durs p h res hres
    obtain ⟨rs, hpc, hres2, _, _, _, _⟩ := pymain_ok_inv h
    exact ((processCases_ok fns durs iterations rounds caseList 0 rs hpc).2 res
      (by rwa [hres2] at hres)).1

/-- Witness for C2: the median theorem applied to the concrete list
`[3, 1, 2]` and its ascending sort `[1, 2, 3]`. -/
theorem median_is_sorted_middle_witness :
    pymedian [3, 1, 2] =
      (if ([1, 2, 3] : List ℚ).length % 2 = 1 then
        ([1, 2, 3] : List ℚ).getD (([1, 2, 3] : List ℚ).length / 2) 0
       else (([1, 2, 3] : List ℚ).getD (([1, 2, 3] : List ℚ).length / 2 - 1) 0 +
         ([1, 2, 3] : List ℚ).getD (([1, 2, 3] : List ℚ).length / 2) 0) / 2) :=
  median_is_sorted_middle.1 [3, 1, 2] [1, 2, 3] (by decide) (by decide) (by decide)

/-- Claim C3 counterexample: with `rounds = 2` and `iterations = 1`, the
invocation trace of a case is warm, warm, warm, meas, warm, warm, warm,
meas — the operation is warmed up 6 times, not exactly 3, and the 4th-6th
warmup invocations happen after measurement has already begun, because
`main` calls `run_case` (which performs its own 3-call warmup) once per
round. -/
theorem warmup_exactly_three_false :
    (caseRounds (fun _ => some 1) (fun _ => 0) 1 0 2).1 =
      [Ev.warm 0, Ev.warm 1, Ev.warm 2, Ev.meas 3,
       Ev.warm 4, Ev.warm 5, Ev.warm 6, Ev.meas 7] ∧
    ¬ (caseRounds (fun _ => some 1) (fun _ => 0) 1 0 2).1.countP (fun e => e.isWarm) = 3 := by
  constructor <;> decide

/-- Claim C3 (amended): every call of the timing harness (`run_case`, one
round of a case) invokes the operation exactly 3 times as warmup before
that round's measurement begins — its trace starts with its 3 warmup
events and contains no other warmups — warmup results and timings never
contribute to the round average (the harness call depends only on
invocations from index `k + 3` on), a successfully measured case
accumulates `3 * rounds` warmup invocations over all its rounds, and the
reported `roundAverages` of every case has length `rounds`. -/
theorem warmup_per_round :
    (∀ (fn : ℕ → Option ℤ) (dur : ℕ → ℚ) (k iterations : ℕ),
      (run_case fn dur k iterations).1.take 3 = [Ev.warm k, Ev.warm (k + 1), Ev.warm (k + 2)] ∧
      (run_case fn dur k iterations).1.countP (fun e => e.isWarm) = 3) ∧
    (∀ (fn1 fn2 : ℕ → Option ℤ) (dur1 dur2 : ℕ → ℚ) (k iterations : ℕ),
      (∀ j, k + 3 ≤ j → fn1 j = fn2 j) → (∀ j, k + 3 ≤ j → dur1 j = dur2 j) →
      run_case fn1 dur1 k iterations = run_case fn2 dur2 k iterations) ∧
    (∀ (fn : ℕ → Option ℤ) (dur : ℕ → ℚ) (iterations k rounds : ℕ) (avgs : List ℚ) (k2 : ℕ),
      (caseRounds fn dur iterations k rounds).2 = Except.ok (avgs, k2) →
      (caseRounds fn dur iterations k rounds).1.countP (fun e => e.isWarm) = 3 * rounds) ∧
    (∀ (rows iterations rounds : ℕ) (fns : ℕ → ℕ → Option ℤ) (durs : ℕ → ℕ → ℚ) (p : Payload),
      pymain rows iterations rounds fns durs = Except.ok p →
      ∀ r ∈ p.results, r.pandasRoundAverages.length = rounds) := by
  refine ⟨?_, ?_, ?_, ?_⟩
  · intro fn dur k iterations
    exact ⟨run_case_take3 fn dur k iterations, run_case_warm_count fn dur k iterations⟩
  · intro fn1 fn2 dur1 dur2 k iterations hf hd
    exact run_case_congr fn1 fn2 dur1 dur2 k iterations hf hd
  · intro fn dur iterations k rounds avgs k2 h
    exact (caseRounds_ok_spec fn dur iterations rounds k avgs k2 h).2
  · intro rows iterations rounds fns durs p h r hr
    obtain ⟨rs, hpc, hres, _, _, _, _⟩ := pymain_ok_inv h
    exact ((processCases_ok fns durs iterations rounds caseList 0 rs hpc).2 r
      (by rwa [hres] at hr)).2

/-- Witness for C3 (amended): the warmup-count conjunct applied to a
concrete successful two-round one-iteration case, which performs
3 * 2 = 6 warmup invocations. -/
theorem warmup_per_round_witness :
    (caseRounds (fun _ => some 1) (fun _ => 0) 1 0 2).1.countP (fun e => e.isWarm) = 3 * 2 :=
  warmup_per_round.2.2.1 (fun _ => some 1) (fun _ => 0) 1 0 2
    [[(0 : ℚ)].sum / ((1 : ℕ) : ℚ), [(0 : ℚ)].sum / ((1 : ℕ) : ℚ)] 8 rfl

/-- Claim C8: if the operation of any registered case returns a null
result, the run fails fatally as a whole: `pymain` ends in an error — the
exception aborts the run at the first measured invocation, there is no
retry, and no payload is ever produced (no partial report).  `1 ≤ rounds`
merely ensures the operation is invoked at all; with `rounds = 0` no
invocation happens and the claim is vacuous. -/
theorem fatal_on_null (rows iterations rounds : ℕ) (fns : ℕ → ℕ → Option ℤ)
    (durs : ℕ → ℕ → ℚ) (j : ℕ) (hj : j < caseList.length)
    (hnull : ∀ k, fns j k = none) (hr : 1 ≤ rounds) :
    ∃ e, pymain rows iterations rounds fns durs = Except.error e := by
  obtain ⟨e, he⟩ := processCases_none_error fns durs iterations rounds hr caseList 0 j hj
    (by simpa using hnull)
  refine ⟨e, ?_⟩
  unfold pymain
  rw [he]

/-- Witness for C8: a run whose first case's operation always returns null
aborts with an error. -/
theorem fatal_on_null_witness :
    ∃ e, pymain 100 1 1 (fun _ _ => none) (fun _ _ => 0) = Except.error e :=
  fatal_on_null 100 1 1 (fun _ _ => none) (fun _ _ => 0) 0 (by decide) (fun _ => rfl) (by decide)

/-- Claim C9: a successful run's payload has exactly one result entry per
registered case, in registration order (its sequence of case/dataset name
pairs equals the registry's, never reordered), and its `cases` field
equals the length of `results`, which is 10 for the fixed case list. -/
theorem payload_case_order (rows iterations rounds : ℕ) (fns : ℕ → ℕ → Option ℤ)
    (durs : ℕ → ℕ → ℚ) (p : Payload)
    (h : pymain rows iterations rounds fns durs = Except.ok p) :
    p.results.map (fun r => (r.caseName, r.dataset)) =
      caseList.map (fun c => (c.name, c.dataset)) ∧
    p.cases = p.results.length ∧ p.results.length = 10 := by
  obtain ⟨rs, hpc, hres, hcases, _, _, _⟩ := pymain_ok_inv h
  have hmap := (processCases_ok fns durs iterations rounds caseList 0 rs hpc).1
  have hlen : rs.length = caseList.length := by
    have hl := congrArg List.length hmap
    simpa using hl
  refine ⟨by rw [hres]; exact hmap, by rw [hcases, hres], ?_⟩
  rw [hres, hlen]
  rfl

/-- Witness for C9: the payload-order theorem applied to a concrete
zero-round run, which succeeds definitionally. -/
theorem payload_case_order_witness :
    ∃ p, pymain 25000 8 0 (fun _ _ => some 1) (fun _ _ => 0) = Except.ok p ∧
      p.cases = p.results.length ∧ p.results.length = 10 := by
  obtain ⟨p, hp⟩ : ∃ p, pymain 25000 8 0 (fun _ _ => some 1) (fun _ _ => 0) = Except.ok p :=
    ⟨_, rfl⟩
  exact ⟨p, hp, (payload_case_order 25000 8 0 _ _ p hp).2⟩

theorem processCases_zero_rounds (fns : ℕ → ℕ → Option ℤ) (durs : ℕ → ℕ → ℚ)
    (iterations : ℕ) :
    ∀ (cs : List Case) (j : ℕ),
      processCases fns durs iterations 0 j cs =
        Except.ok (cs.map fun c => ⟨c.name, c.dataset, pymedian [], []⟩) := by
  intro cs
  induction cs with
  | nil => intro j; rfl
  | cons c rest ih =>
    intro j
    rw [processCases_cons_ok_ok fns durs iterations 0 j c rest [] 0 _ rfl (ih (j + 1))]
    rfl

/-- Claim C10: `median` returns 0 on the empty sequence, so a run
configured with `rounds = 0` completes without error rather than failing:
the payload is produced, every case reports a robust average of 0 and an
empty `roundAverages` list. -/
theorem rounds_zero_completes :
    pymedian ([] : List ℚ) = 0 ∧
    ∀ (rows iterations : ℕ) (fns : ℕ → ℕ → Option ℤ) (durs : ℕ → ℕ → ℚ),
      ∃ p, pymain rows iterations 0 fns durs = Except.ok p ∧ p.cases = 10 ∧
        ∀ r ∈ p.results, r.pandasAvgMs = 0 ∧ r.pandasRoundAverages = [] := by
  refine ⟨rfl, ?_⟩
  intro rows iterations fns durs
  refine ⟨⟨rows, iterations, 0,
    (caseList.map fun c => (⟨c.name, c.dataset, pymedian [], []⟩ : CaseResult)).length,
    caseList.map fun c => ⟨c.name, c.dataset, pymedian [], []⟩⟩, ?_, rfl, ?_⟩
  · unfold pymain
    rw [processCases_zero_rounds]
  · intro r hr
    simp only [List.mem_map] at hr
    obtain ⟨c, _, rfl⟩ := hr
    exact ⟨rfl, rfl⟩

/-- Witness for C10: the rounds-zero theorem instantiated at a concrete
run configuration whose operations even return null — with no rounds they
are never invoked. -/
theorem rounds_zero_completes_witness :
    pymedian ([] : List ℚ) = 0 ∧
    ∃ p, pymain 7 4 0 (fun _ _ => none) (fun _ _ => 0) = Except.ok p ∧ p.cases = 10 ∧
      ∀ r ∈ p.results, r.pandasAvgMs = 0 ∧ r.pandasRoundAverages = [] :=
  ⟨rounds_zero_completes.1, rounds_zero_completes.2 7 4 (fun _ _ => none) (fun _ _ => 0)⟩
